import Mathlib

/-!
Verification of the aiMultiFool inference-orchestration core.

This file shallowly embeds the Python functions of `ai_engine.py`,
`logic_mixins.py`, `llm_subprocess_client.py` and `llm_subprocess_worker.py`
that the verified properties speak about, and proves (or refutes) those
properties over the embedding.

Modelling conventions:
* A tokenizer handle (`llm`) is abstracted as `Tok : String → Nat`, the
  composition `len ∘ llm.tokenize ∘ utf8-encode`: the code only ever uses the
  length of the token list.  A missing handle is `Option.none`.
* Python `int(x * 0.85)` / `int(x * 0.6)` on a nonnegative integer `x` is
  embedded as natural floor division `(85 * x) / 100` / `(60 * x) / 100`,
  the exact rational value of the float expression for in-range sizes.
* Python lists are Lean `List`s; `list.pop(i)` is `List.eraseIdx i` on the
  (copied) list; Python `while` loops become recursive functions whose guard
  is the loop condition, terminating because the list length (or the halved
  counter) strictly decreases.
* Machine integers are `Int`/`Nat` (Python integers are unbounded, so no
  wrap-around modelling is needed).
-/

namespace AiMultiFool

/-- A chat message: `{"role": ..., "content": ...}`. -/
structure Msg where
  role : String
  content : String
deriving DecidableEq

/-- Abstract tokenizer handle: maps a text to the number of tokens that
`llm.tokenize(text.encode("utf-8"), add_bos=False, special=False)` returns. -/
def Tok : Type := String → Nat

/-- The text actually tokenized for one message in
`count_tokens_in_messages` (ai_engine.py lines 81-88): system and user
messages are tokenized as their raw content, any other role gets the
role-disambiguating prefix `"Assistant: "`. -/
def messageText (msg : Msg) : String :=
  if msg.role = "system" then msg.content
  else if msg.role = "user" then msg.content
  else "Assistant: " ++ msg.content

/-- `count_tokens_in_messages(llm, messages)` (ai_engine.py lines 75-100):
`0` without a model handle, otherwise the accumulated per-message token
counts plus `(len(messages) - 1) * 2`.  The result lives in `Int` because
Python evaluates `(len(messages) - 1) * 2` with signed arithmetic. -/
def count_tokens_in_messages (llm : Option Tok) (messages : List Msg) : Int :=
  match llm with
  | none => 0
  | some tok =>
    let total_tokens : Int :=
      messages.foldl (fun acc msg => acc + (tok (messageText msg) : Int)) 0
    total_tokens + ((messages.length : Int) - 1) * 2

/-- `int(context_size * 0.85)`, the pruning trigger threshold
(ai_engine.py line 112). -/
def prune_threshold (context_size : Nat) : Int :=
  ((85 * context_size) / 100 : Nat)

/-- `int(context_size * 0.6)`, the pruning target (ai_engine.py line 115). -/
def prune_target (context_size : Nat) : Int :=
  ((60 * context_size) / 100 : Nat)

/-- The main pruning loop (ai_engine.py lines 129-131): while the token
count exceeds the target and more than `preserve_first_count + 1` messages
remain, pop the message right after the preserved section. -/
def pruneLoop (tok : Tok) (target : Int) (pfc : Nat) (msgs : List Msg) :
    List Msg :=
  if h : target < count_tokens_in_messages (some tok) msgs ∧
      pfc + 1 < msgs.length then
    pruneLoop tok target pfc (msgs.eraseIdx pfc)
  else msgs
termination_by msgs.length
decreasing_by
  simp only [List.length_eraseIdx]
  split <;> omega

/-- The fallback pruning loop (ai_engine.py lines 138-143): while the token
count exceeds the target and more than 2 messages remain, pop the middle
message (`len // 2`) if more than 3 remain, otherwise break. -/
def middleLoop (tok : Tok) (target : Int) (msgs : List Msg) : List Msg :=
  if h : target < count_tokens_in_messages (some tok) msgs ∧
      2 < msgs.length then
    if h3 : 3 < msgs.length then
      middleLoop tok target (msgs.eraseIdx (msgs.length / 2))
    else msgs
  else msgs
termination_by msgs.length
decreasing_by
  simp only [List.length_eraseIdx]
  split <;> omega

/-- `prune_messages_if_needed(llm, messages, context_size)`
(ai_engine.py lines 102-146). -/
def prune_messages_if_needed (llm : Option Tok) (messages : List Msg)
    (context_size : Nat) : List Msg :=
  match llm with
  | none => messages
  | some tok =>
    if messages.length ≤ 2 then messages
    else
      let current_tokens := count_tokens_in_messages (some tok) messages
      if prune_threshold context_size < current_tokens then
        let target_tokens := prune_target context_size
        let preserve_first_count := min 7 messages.length
        if preserve_first_count < messages.length then
          pruneLoop tok target_tokens preserve_first_count messages
        else
          middleLoop tok target_tokens messages
      else messages

/-! ### Helper lemmas about `List.eraseIdx` -/

/-- Erasing at a positive index leaves the head unchanged. -/
lemma head?_eraseIdx_of_pos {α : Type} (l : List α) (i : Nat) (hi : 0 < i) :
    (l.eraseIdx i).head? = l.head? := by
  rw [List.head?_eq_getElem?, List.head?_eq_getElem?, List.getElem?_eraseIdx,
    if_pos hi]

/-- Erasing strictly before the last position leaves the last element
unchanged. -/
lemma getLast?_eraseIdx_of_lt {α : Type} (l : List α) (i : Nat)
    (hi : i + 1 < l.length) :
    (l.eraseIdx i).getLast? = l.getLast? := by
  rw [List.getLast?_eq_getElem?, List.getLast?_eq_getElem?,
    List.getElem?_eraseIdx, List.length_eraseIdx,
    if_pos (show i < l.length by omega),
    if_neg (show ¬(l.length - 1 - 1 < i) by omega)]
  congr 1
  omega

/-! ### Invariants of the pruning loops -/

lemma pruneLoop_head? (tok : Tok) (target : Int) (pfc : Nat)
    (msgs : List Msg) (hp : 0 < pfc) :
    (pruneLoop tok target pfc msgs).head? = msgs.head? := by
  induction msgs using pruneLoop.induct with
  | tok => exact tok
  | target => exact target
  | pfc => exact pfc
  | case1 x hg ih =>
    rw [pruneLoop, dif_pos hg, ih]
    exact head?_eraseIdx_of_pos x pfc hp
  | case2 x hg =>
    rw [pruneLoop, dif_neg hg]

lemma pruneLoop_getLast? (tok : Tok) (target : Int) (pfc : Nat)
    (msgs : List Msg) :
    (pruneLoop tok target pfc msgs).getLast? = msgs.getLast? := by
  induction msgs using pruneLoop.induct with
  | tok => exact tok
  | target => exact target
  | pfc => exact pfc
  | case1 x hg ih =>
    rw [pruneLoop, dif_pos hg, ih]
    exact getLast?_eraseIdx_of_lt x pfc hg.2
  | case2 x hg =>
    rw [pruneLoop, dif_neg hg]

/-- When the loop starts with at least `pfc + 1` messages, it stops either at
or below the target token count or with exactly `pfc + 1` messages. -/
lemma pruneLoop_post (tok : Tok) (target : Int) (pfc : Nat)
    (msgs : List Msg) (hlen : pfc + 1 ≤ msgs.length) :
    count_tokens_in_messages (some tok) (pruneLoop tok target pfc msgs) ≤
      target ∨
    (pruneLoop tok target pfc msgs).length = pfc + 1 := by
  revert hlen
  induction msgs using pruneLoop.induct with
  | tok => exact tok
  | target => exact target
  | pfc => exact pfc
  | case1 x hg ih =>
    intro hlen
    rw [pruneLoop, dif_pos hg]
    exact ih (by simp only [List.length_eraseIdx]; split <;> omega)
  | case2 x hg =>
    intro hlen
    rw [pruneLoop, dif_neg hg]
    rw [not_and_or, not_lt, not_lt] at hg
    omega

lemma middleLoop_head? (tok : Tok) (target : Int) (msgs : List Msg) :
    (middleLoop tok target msgs).head? = msgs.head? := by
  induction msgs using middleLoop.induct with
  | tok => exact tok
  | target => exact target
  | case1 x hg h3 ih =>
    rw [middleLoop, dif_pos hg, dif_pos h3, ih]
    exact head?_eraseIdx_of_pos x (x.length / 2) (by omega)
  | case2 x hg h3 =>
    rw [middleLoop, dif_pos hg, dif_neg h3]
  | case3 x hg =>
    rw [middleLoop, dif_neg hg]

lemma middleLoop_getLast? (tok : Tok) (target : Int) (msgs : List Msg) :
    (middleLoop tok target msgs).getLast? = msgs.getLast? := by
  induction msgs using middleLoop.induct with
  | tok => exact tok
  | target => exact target
  | case1 x hg h3 ih =>
    rw [middleLoop, dif_pos hg, dif_pos h3, ih]
    exact getLast?_eraseIdx_of_lt x (x.length / 2) (by omega)
  | case2 x hg h3 =>
    rw [middleLoop, dif_pos hg, dif_neg h3]
  | case3 x hg =>
    rw [middleLoop, dif_neg hg]

/-! ### Facts about `prune_messages_if_needed` -/

lemma prune_head? (llm : Option Tok) (messages : List Msg)
    (context_size : Nat) :
    (prune_messages_if_needed llm messages context_size).head? =
      messages.head? := by
  cases llm with
  | none => rfl
  | some tok =>
    rw [prune_messages_if_needed]
    by_cases h2 : messages.length ≤ 2
    · rw [if_pos h2]
    · rw [if_neg h2]
      by_cases hth :
          prune_threshold context_size <
            count_tokens_in_messages (some tok) messages
      · rw [if_pos hth]
        by_cases hpf : min 7 messages.length < messages.length
        · rw [if_pos hpf]
          exact pruneLoop_head? tok _ _ messages (by omega)
        · rw [if_neg hpf]
          exact middleLoop_head? tok _ messages
      · rw [if_neg hth]

lemma prune_getLast? (llm : Option Tok) (messages : List Msg)
    (context_size : Nat) :
    (prune_messages_if_needed llm messages context_size).getLast? =
      messages.getLast? := by
  cases llm with
  | none => rfl
  | some tok =>
    rw [prune_messages_if_needed]
    by_cases h2 : messages.length ≤ 2
    · rw [if_pos h2]
    · rw [if_neg h2]
      by_cases hth :
          prune_threshold context_size <
            count_tokens_in_messages (some tok) messages
      · rw [if_pos hth]
        by_cases hpf : min 7 messages.length < messages.length
        · rw [if_pos hpf]
          exact pruneLoop_getLast? tok _ _ messages
        · rw [if_neg hpf]
          exact middleLoop_getLast? tok _ messages
      · rw [if_neg hth]

/-- C1: For every conversation and context size, `prune_messages_if_needed`
never removes the message at index 0 nor the final (newest) message: both
are still present, in place, in the returned conversation. -/
theorem prune_preserves_first_and_last (llm : Option Tok)
    (messages : List Msg) (context_size : Nat) :
    (prune_messages_if_needed llm messages context_size).head? =
      messages.head? ∧
    (prune_messages_if_needed llm messages context_size).getLast? =
      messages.getLast? :=
  ⟨prune_head? llm messages context_size,
   prune_getLast? llm messages context_size⟩

/-- C9: Pruning is the identity when not triggered: with the token count at
most `int(0.85 * context_size)` or at most 2 messages (or no model handle,
whose token count is 0), the input list is returned unchanged.  In the
embedding the input list is immutable by construction, matching the code,
which pops only from `messages.copy()`.  The second conjunct pins the
threshold of the spec scenario: `int(8192 * 0.85) = 6963`. -/
theorem prune_identity_when_not_triggered (llm : Option Tok)
    (messages : List Msg) (context_size : Nat)
    (h : count_tokens_in_messages llm messages ≤ prune_threshold context_size ∨
      messages.length ≤ 2) :
    prune_messages_if_needed llm messages context_size = messages ∧
    prune_threshold 8192 = 6963 := by
  refine ⟨?_, by decide⟩
  cases llm with
  | none => rfl
  | some tok =>
    rw [prune_messages_if_needed]
    by_cases h2 : messages.length ≤ 2
    · rw [if_pos h2]
    · rw [if_neg h2, if_neg]
      rcases h with h | h
      · exact not_lt.mpr h
      · exact absurd h h2

/-- A constant tokenizer: every text counts as `n` tokens. -/
def tokC (n : Nat) : Tok := fun _ => n

/-- A three-message conversation used for concrete evaluations. -/
def msgs3 : List Msg :=
  [⟨"system", "s"⟩, ⟨"user", "u"⟩, ⟨"assistant", "a"⟩]

/-- An eight-message conversation used for concrete evaluations. -/
def msgs8 : List Msg :=
  [⟨"system", "s"⟩, ⟨"user", "u1"⟩, ⟨"assistant", "a1"⟩, ⟨"user", "u2"⟩,
   ⟨"assistant", "a2"⟩, ⟨"user", "u3"⟩, ⟨"assistant", "a3"⟩, ⟨"user", "u4"⟩]

/-- Witness for `prune_identity_when_not_triggered` at a concrete
under-threshold conversation. -/
theorem prune_identity_when_not_triggered_witness :
    (count_tokens_in_messages (some (tokC 10)) msgs3 ≤ prune_threshold 8192 ∨
      msgs3.length ≤ 2) ∧
    (prune_messages_if_needed (some (tokC 10)) msgs3 8192 = msgs3 ∧
      prune_threshold 8192 = 6963) :=
  ⟨Or.inl (by decide),
   prune_identity_when_not_triggered (some (tokC 10)) msgs3 8192
     (Or.inl (by decide))⟩

/-- C2 counterexample: with 3 messages of 100 tokens each and context size
100, the token count (304) exceeds the threshold (85), yet pruning (which
takes the fallback middle-deletion branch and immediately stops, since only
3 messages remain) leaves the token count above the target (60) and the
length at 3 ≠ `min 7 3 + 1 = 4`.  So pruning a conversation with more than
2 messages over the threshold does not always reach the target or the
preserved floor plus one. -/
theorem prune_target_counterexample :
    2 < msgs3.length ∧
    prune_threshold 100 < count_tokens_in_messages (some (tokC 100)) msgs3 ∧
    ¬ (count_tokens_in_messages (some (tokC 100))
          (prune_messages_if_needed (some (tokC 100)) msgs3 100) ≤
        prune_target 100 ∨
       (prune_messages_if_needed (some (tokC 100)) msgs3 100).length =
        min 7 msgs3.length + 1) := by
  have hmid : middleLoop (tokC 100) (prune_target 100) msgs3 = msgs3 := by
    rw [middleLoop,
      dif_pos (show prune_target 100 <
          count_tokens_in_messages (some (tokC 100)) msgs3 ∧
          2 < msgs3.length by exact ⟨by decide, by decide⟩),
      dif_neg (show ¬3 < msgs3.length by decide)]
  have hprune :
      prune_messages_if_needed (some (tokC 100)) msgs3 100 = msgs3 := by
    simp only [prune_messages_if_needed]
    rw [if_neg (by decide), if_pos (by decide), if_neg (by decide)]
    exact hmid
  refine ⟨by decide, by decide, ?_⟩
  rw [hprune]
  decide

/-- C2 (amended): For every conversation with more than 7 messages (so the
preferred branch with its preserved block of `min(7, len) = 7` messages
applies) whose token count exceeds the threshold, pruning yields a token
count at most the target OR a conversation of exactly 8 messages (the
preserved block plus the final message). -/
theorem prune_reaches_target_or_floor (tok : Tok) (messages : List Msg)
    (context_size : Nat) (hlen : 7 < messages.length)
    (hover : prune_threshold context_size <
      count_tokens_in_messages (some tok) messages) :
    count_tokens_in_messages (some tok)
        (prune_messages_if_needed (some tok) messages context_size) ≤
      prune_target context_size ∨
    (prune_messages_if_needed (some tok) messages context_size).length = 8 := by
  have hpf : min 7 messages.length = 7 := by omega
  simp only [prune_messages_if_needed]
  rw [if_neg (by omega), if_pos hover, hpf, if_pos (by omega)]
  exact pruneLoop_post tok (prune_target context_size) 7 messages (by omega)

/-- Witness for `prune_reaches_target_or_floor` on a concrete 8-message
conversation over the threshold. -/
theorem prune_reaches_target_or_floor_witness :
    7 < msgs8.length ∧
    prune_threshold 100 < count_tokens_in_messages (some (tokC 100)) msgs8 ∧
    (count_tokens_in_messages (some (tokC 100))
        (prune_messages_if_needed (some (tokC 100)) msgs8 100) ≤
      prune_target 100 ∨
     (prune_messages_if_needed (some (tokC 100)) msgs8 100).length = 8) :=
  ⟨by decide, by decide,
   prune_reaches_target_or_floor (tokC 100) msgs8 100 (by decide) (by decide)⟩

/-- Folding addition over a list equals the initial value plus the mapped
sum. -/
lemma foldl_add_eq (f : Msg → Int) :
    ∀ (l : List Msg) (a : Int),
      l.foldl (fun acc m => acc + f m) a = a + (l.map f).sum := by
  intro l
  induction l with
  | nil => intro a; simp
  | cons m t ih =>
    intro a
    simp only [List.foldl_cons, List.map_cons, List.sum_cons, ih]
    ring

/-- C8: For every non-empty conversation, `count_tokens_in_messages` equals
the sum of per-message token counts — system and user messages tokenized as
their content, other (assistant) messages with the `"Assistant: "` prefix —
plus `(messageCount - 1) * 2` boundary overhead; with no model handle it
returns 0. -/
theorem count_tokens_formula (tok : Tok) (messages : List Msg)
    (h : messages ≠ []) :
    count_tokens_in_messages (some tok) messages =
      (messages.map fun m =>
        (tok (if m.role = "system" then m.content
              else if m.role = "user" then m.content
              else "Assistant: " ++ m.content) : Int)).sum +
      ((messages.length : Int) - 1) * 2 ∧
    count_tokens_in_messages none messages = 0 := by
  refine ⟨?_, rfl⟩
  simp only [count_tokens_in_messages, messageText]
  rw [foldl_add_eq, zero_add]

/-- Witness for `count_tokens_formula` at a concrete conversation. -/
theorem count_tokens_formula_witness :
    msgs3 ≠ [] ∧
    (count_tokens_in_messages (some (tokC 10)) msgs3 =
      (msgs3.map fun m =>
        (tokC 10 (if m.role = "system" then m.content
              else if m.role = "user" then m.content
              else "Assistant: " ++ m.content) : Int)).sum +
      ((msgs3.length : Int) - 1) * 2 ∧
     count_tokens_in_messages none msgs3 = 0) :=
  ⟨by decide, count_tokens_formula (tokC 10) msgs3 (by decide)⟩

/-! ### Model cache (`ai_engine.py` lines 47-73, `logic_mixins.py` model
loading) -/

/-- One value of the persisted model cache:
`{"gpu_layers": ..., "model_path": ..., "context_size": ...}`
(logic_mixins.py lines 315, 341). -/
structure CacheEntry where
  gpu_layers : Int
  model_path : String
  context_size : Nat
deriving DecidableEq

/-- The in-memory model cache: a finite mapping from string keys to entries
(a Python dict). -/
def Cache : Type := String → Option CacheEntry

/-- The empty cache `{}`. -/
def emptyCache : Cache := fun _ => none

/-- Python dict assignment `cache[key] = e`. -/
def cacheInsert (cache : Cache) (key : String) (e : CacheEntry) : Cache :=
  fun k => if k = key then some e else cache k

/-- `get_cache_key(model_path, context_size)` (ai_engine.py lines 71-73):
the string `f"{model_path}:{context_size}"`. -/
def get_cache_key (model_path : String) (context_size : Nat) : String :=
  model_path ++ ":" ++ toString context_size

/-- A JSON value successfully parsed from the cache file: either a JSON
object (decoded into a mapping) or some other JSON value (array, string,
number, boolean, null), which `json.load` returns as-is. -/
inductive CacheJson
  | obj (cache : Cache)
  | nonObj

/-- The exceptions `load_model_cache` can leak.  `UnicodeDecodeError` is a
subclass of `ValueError`, not of `json.JSONDecodeError` nor of
`IOError`/`OSError`, so the handler
`except (json.JSONDecodeError, IOError)` does not catch it. -/
inductive PyExn
  | unicodeDecodeError
deriving DecidableEq

/-- The possible outcomes of `cache_path.exists()` followed by
`open(cache_path, "r", encoding="utf-8")` and `json.load(f)`
(ai_engine.py lines 51-60):
* `missing`: `exists()` is false;
* `ioError`: opening or reading raises `IOError`/`OSError`;
* `badUtf8`: the file's bytes are not valid UTF-8, so reading the text
  stream raises `UnicodeDecodeError`;
* `badJson`: the text decodes but is not valid JSON, so `json.load` raises
  `json.JSONDecodeError`;
* `parsed v`: `json.load` returns the value `v`. -/
inductive CacheFileRead
  | missing
  | ioError
  | badUtf8
  | badJson
  | parsed (v : CacheJson)

/-- `load_model_cache()` (ai_engine.py lines 51-60), as a function of the
outcome of reading the cache file.  `missing` and the two caught exception
classes degrade to `{}`; `UnicodeDecodeError` escapes to the caller; a
parsed value is returned unchanged (even when it is not a mapping). -/
def load_model_cache : CacheFileRead → Except PyExn CacheJson
  | .missing => .ok (.obj emptyCache)
  | .ioError => .ok (.obj emptyCache)
  | .badJson => .ok (.obj emptyCache)
  | .badUtf8 => .error .unicodeDecodeError
  | .parsed v => .ok v

/-- C10 (evaluation of the code at the failing input): a missing file, an
I/O error and undecodable JSON all degrade to the empty mapping, but a
cache file whose bytes are not valid UTF-8 raises `UnicodeDecodeError` to
the caller (the `except` clause only covers `json.JSONDecodeError` and
`IOError`), and a file holding valid non-object JSON is returned as a
non-mapping — so loading does not always return a mapping and can raise. -/
theorem load_model_cache_bad_utf8_raises :
    load_model_cache .missing = .ok (.obj emptyCache) ∧
    load_model_cache .ioError = .ok (.obj emptyCache) ∧
    load_model_cache .badJson = .ok (.obj emptyCache) ∧
    load_model_cache .badUtf8 = .error .unicodeDecodeError ∧
    load_model_cache (.parsed .nonObj) = .ok .nonObj :=
  ⟨rfl, rfl, rfl, rfl, rfl⟩

/-! ### Offload-level candidates (`load_model_task`, logic_mixins.py lines
224-259) -/

/-- `list(range(64, -1, -4))` (logic_mixins.py line 248), the descending
fallback ladder for a request of "all layers". -/
def fallbackLadder : List Int :=
  [64, 60, 56, 52, 48, 44, 40, 36, 32, 28, 24, 20, 16, 12, 8, 4, 0]

/-- The duplicate-skipping append used by the candidate construction:
`for x in l: if x not in acc: acc.append(x)`. -/
def appendNew (base : List Int) (l : List Int) : List Int :=
  l.foldl (fun acc x => if x ∈ acc then acc else acc ++ [x]) base

/-- The halving loop of logic_mixins.py lines 253-257:
`while current > 4: current //= 2; if current not in layers: append`.
Lean's `Int` division by a positive number is floor division, the exact
semantics of Python `//`. -/
def halveLoop (current : Int) (acc : List Int) : List Int :=
  if h : 4 < current then
    halveLoop (current / 2)
      (if current / 2 ∈ acc then acc else acc ++ [current / 2])
  else acc
termination_by current.toNat
decreasing_by omega

/-- The initial candidate block (logic_mixins.py lines 239-245): the cached
prior success, then the requested value if different; just the requested
value when nothing is cached. -/
def cachedBase (cached : Option Int) (requested : Int) : List Int :=
  match cached with
  | some c => if c ≠ requested then [c, requested] else [c]
  | none => [requested]

/-- The candidate offload-level sequence built by `load_model_task`
(logic_mixins.py lines 229-259), as a function of the cached prior success
for this key (`cache[cache_key].get("gpu_layers")`, `none` when the key or
field is absent) and the requested level. -/
def layers_to_try (cached : Option Int) (requested : Int) : List Int :=
  if requested = 0 then [0]
  else if requested = -1 then
    appendNew (cachedBase cached requested) fallbackLadder
  else
    if 0 ∈ halveLoop requested (cachedBase cached requested) then
      halveLoop requested (cachedBase cached requested)
    else
      halveLoop requested (cachedBase cached requested) ++ [0]

/-- Modelled from the spec's candidate description: "for a specific count
N, repeatedly halve until ≤ 4" — the sequence of successive halvings. -/
def specHalves (n : Int) : List Int :=
  if h : 4 < n then (n / 2) :: specHalves (n / 2) else []
termination_by n.toNat
decreasing_by omega

/-- Modelled from the spec's candidate description: the deterministic
fallback ladder — for "all layers" the descent 64 → 0 in steps of 4; for a
specific count the halvings, "always ending at 0". -/
def specLadder (requested : Int) : List Int :=
  if requested = -1 then fallbackLadder else specHalves requested ++ [0]

/-- Modelled from the spec's candidate description: "cached prior success
for this key first (plus the freshly requested value if different)". -/
def specBase (cached : Option Int) (requested : Int) : List Int :=
  match cached with
  | some c => if c = requested then [c] else [c, requested]
  | none => [requested]

/-- Modelled from the spec's candidate description: the cached block
first, then the fallback ladder with duplicates skipped; for "CPU only"
just `[0]`. -/
def specCandidates (cached : Option Int) (requested : Int) : List Int :=
  if requested = 0 then [0]
  else appendNew (specBase cached requested) (specLadder requested)

/-- The probing loop of `_load_llama_thread` (logic_mixins.py lines
299-346) over an abstract per-level load attempt: returns the list of
levels actually attempted, in order, and the first successful level. -/
def probeTrace (attempt : Int → Bool) : List Int → List Int × Option Int
  | [] => ([], none)
  | l :: rest =>
    if attempt l then ([l], some l)
    else
      let r := probeTrace attempt rest
      (l :: r.1, r.2)

/-! ### Properties of the candidate construction -/

lemma mem_appendNew (a : Int) :
    ∀ (l base : List Int), a ∈ appendNew base l ↔ a ∈ base ∨ a ∈ l := by
  intro l
  induction l with
  | nil =>
    intro base
    simp [appendNew]
  | cons x t ih =>
    intro base
    have hstep : appendNew base (x :: t) =
        appendNew (if x ∈ base then base else base ++ [x]) t := rfl
    rw [hstep, ih]
    by_cases hx : x ∈ base
    · rw [if_pos hx]
      simp only [List.mem_cons]
      constructor
      · rintro (h | h)
        · exact Or.inl h
        · exact Or.inr (Or.inr h)
      · rintro (h | h | h)
        · exact Or.inl h
        · exact Or.inl (h ▸ hx)
        · exact Or.inr h
    · rw [if_neg hx]
      simp only [List.mem_append, List.mem_cons, List.mem_singleton]
      tauto

lemma appendNew_append (base l1 l2 : List Int) :
    appendNew base (l1 ++ l2) = appendNew (appendNew base l1) l2 := by
  simp [appendNew, List.foldl_append]

lemma halveLoop_eq_appendNew (current : Int) (acc : List Int) :
    halveLoop current acc = appendNew acc (specHalves current) := by
  induction current, acc using halveLoop.induct with
  | case1 c a hg ih =>
    rw [halveLoop, dif_pos hg, specHalves, dif_pos hg]
    exact ih
  | case2 c a hg =>
    rw [halveLoop, dif_neg hg, specHalves, dif_neg hg]
    rfl

lemma specHalves_two_le (n x : Int) (hx : x ∈ specHalves n) : 2 ≤ x := by
  induction n using specHalves.induct with
  | case1 c hg ih =>
    rw [specHalves, dif_pos hg] at hx
    rcases List.mem_cons.mp hx with h | h
    · omega
    · exact ih h
  | case2 c hg =>
    rw [specHalves, dif_neg hg] at hx
    exact absurd hx (List.not_mem_nil x)

/-- The two spellings of the base block (cached success plus requested
value if different) coincide. -/
lemma cachedBase_eq_specBase (cached : Option Int) (requested : Int) :
    cachedBase cached requested = specBase cached requested := by
  cases cached with
  | none => rfl
  | some c =>
    by_cases hc : c = requested
    · simp [cachedBase, specBase, hc]
    · simp [cachedBase, specBase, hc]

lemma layers_eq_spec (cached : Option Int) (requested : Int) :
    layers_to_try cached requested = specCandidates cached requested := by
  by_cases h0 : requested = 0
  · simp [layers_to_try, specCandidates, h0]
  · by_cases hm : requested = -1
    · rw [layers_to_try, if_neg h0, if_pos hm, specCandidates, if_neg h0,
        specLadder, if_pos hm, cachedBase_eq_specBase]
    · rw [layers_to_try, if_neg h0, if_neg hm, specCandidates, if_neg h0,
        specLadder, if_neg hm, appendNew_append, ← halveLoop_eq_appendNew,
        cachedBase_eq_specBase]
      rfl

lemma zero_mem_layers (cached : Option Int) (requested : Int) :
    0 ∈ layers_to_try cached requested := by
  by_cases h0 : requested = 0
  · simp [layers_to_try, h0]
  · by_cases hm : requested = -1
    · rw [layers_to_try, if_neg h0, if_pos hm]
      exact (mem_appendNew 0 fallbackLadder _).mpr (Or.inr (by decide))
    · rw [layers_to_try, if_neg h0, if_neg hm]
      by_cases hz : 0 ∈ halveLoop requested (cachedBase cached requested)
      · rw [if_pos hz]
        exact hz
      · rw [if_neg hz]
        exact List.mem_append_right _ (List.mem_singleton.mpr rfl)

/-- The initial segment of the fallback ladder, before its final 0. -/
lemma fallbackLadder_split :
    fallbackLadder =
      [64, 60, 56, 52, 48, 44, 40, 36, 32, 28, 24, 20, 16, 12, 8, 4] ++
        [(0 : Int)] := rfl

lemma zero_not_mem_base (cached : Option Int) (requested : Int)
    (hc : ∀ c, cached = some c → c ≠ 0) (h0 : requested ≠ 0) :
    (0 : Int) ∉ cachedBase cached requested := by
  cases cached with
  | none =>
    intro h
    rw [cachedBase] at h
    exact h0 (List.mem_singleton.mp h).symm
  | some c =>
    have hcz : c ≠ 0 := hc c rfl
    rw [cachedBase]
    by_cases hcr : c ≠ requested
    · rw [if_pos hcr]
      intro hmem
      rcases List.mem_cons.mp hmem with h | h
      · exact hcz h.symm
      · exact h0 (List.mem_singleton.mp h).symm
    · rw [if_neg hcr]
      intro hmem
      exact hcz (List.mem_singleton.mp hmem).symm

lemma layers_getLast_zero (cached : Option Int) (requested : Int)
    (hc : ∀ c, cached = some c → c ≠ 0)
    (hr : requested = -1 ∨ 0 < requested) :
    (layers_to_try cached requested).getLast? = some 0 := by
  have h0 : requested ≠ 0 := by rcases hr with h | h <;> omega
  rcases hr with hm | hpos
  · rw [layers_to_try, if_neg h0, if_pos hm]
    rw [fallbackLadder_split, appendNew_append]
    have hz : (0 : Int) ∉ appendNew (cachedBase cached requested)
        [64, 60, 56, 52, 48, 44, 40, 36, 32, 28, 24, 20, 16, 12, 8, 4] := by
      rw [mem_appendNew]
      rintro (h | h)
      · exact zero_not_mem_base cached requested hc h0 h
      · revert h
        decide
    rw [show ∀ (X : List Int), appendNew X [0] =
        if (0 : Int) ∈ X then X else X ++ [0] from fun X => rfl]
    rw [if_neg hz]
    exact List.getLast?_concat _
  · rw [layers_to_try, if_neg h0, if_neg (show requested ≠ -1 by omega)]
    have hz : (0 : Int) ∉
        halveLoop requested (cachedBase cached requested) := by
      rw [halveLoop_eq_appendNew, mem_appendNew]
      rintro (h | h)
      · exact zero_not_mem_base cached requested hc h0 h
      · have := specHalves_two_le requested 0 h
        omega
    rw [if_neg hz]
    exact List.getLast?_concat _

lemma probeTrace_spec (attempt : Int → Bool) :
    ∀ (l : List Int) (x : Int), (probeTrace attempt l).2 = some x →
      attempt x = true ∧
      (probeTrace attempt l).1 =
        l.takeWhile (fun c => !attempt c) ++ [x] := by
  intro l
  induction l with
  | nil =>
    intro x h
    exact absurd h (by simp [probeTrace])
  | cons y t ih =>
    intro x h
    cases hy : attempt y with
    | true =>
      simp only [probeTrace, hy, if_pos] at h ⊢
      have hx : y = x := by
        simpa using h
      subst hx
      simp [List.takeWhile, hy]
    | false =>
      simp only [probeTrace, hy, Bool.false_eq_true, if_false] at h ⊢
      obtain ⟨h1, h2⟩ := ih x h
      refine ⟨h1, ?_⟩
      simp [List.takeWhile, hy, h2]

/-- C3: The candidate offload-level sequence equals the spec's description
(cached success first, plus the requested value if different, then the
deduplicated fallback ladder: the 64→0 descent for "all layers", the
halvings-then-0 for a positive count, just `[0]` for a CPU-only request);
0 is always among the candidates, and is the final candidate whenever the
cached value is not itself 0; and probing attempts candidates in order,
stopping at the first success — the attempted levels are exactly the
failing front of the list followed by the first successful level. -/
theorem loader_candidate_order :
    (∀ (cached : Option Int) (requested : Int),
      layers_to_try cached requested = specCandidates cached requested) ∧
    (∀ (cached : Option Int) (requested : Int),
      0 ∈ layers_to_try cached requested) ∧
    (∀ (cached : Option Int) (requested : Int),
      (∀ c, cached = some c → c ≠ 0) → (requested = -1 ∨ 0 < requested) →
      (layers_to_try cached requested).getLast? = some 0) ∧
    (∀ (attempt : Int → Bool) (cached : Option Int) (requested l : Int),
      (probeTrace attempt (layers_to_try cached requested)).2 = some l →
      attempt l = true ∧
      (probeTrace attempt (layers_to_try cached requested)).1 =
        (layers_to_try cached requested).takeWhile (fun c => !attempt c) ++
          [l]) :=
  ⟨layers_eq_spec, zero_mem_layers, layers_getLast_zero,
   fun attempt cached requested l h =>
     probeTrace_spec attempt (layers_to_try cached requested) l h⟩

/-- Witness for `loader_candidate_order`, instantiated for an "all layers"
request with no cached entry and an attempt oracle that succeeds first at
level 56. -/
theorem loader_candidate_order_witness :
    (layers_to_try none (-1) = specCandidates none (-1)) ∧
    (0 ∈ layers_to_try none (-1)) ∧
    ((layers_to_try none (-1)).getLast? = some 0) ∧
    ((probeTrace (fun c => c == 56) (layers_to_try none (-1))).2 =
        some 56 ∧
      (fun c => (c : Int) == 56) 56 = true ∧
      (probeTrace (fun c => c == 56) (layers_to_try none (-1))).1 =
        (layers_to_try none (-1)).takeWhile (fun c => !(c == 56)) ++
          [(56 : Int)]) :=
  ⟨loader_candidate_order.1 none (-1),
   loader_candidate_order.2.1 none (-1),
   loader_candidate_order.2.2.1 none (-1) (fun c h => nomatch h)
     (Or.inl rfl),
   by
    refine ⟨by decide, ?_⟩
    exact loader_candidate_order.2.2.2 (fun c => c == 56) none (-1) 56
      (by decide)⟩

/-! ### The load thread and its result check (`load_model_task`,
`_load_llama_thread`, `_check_model_load_result`, logic_mixins.py lines
224-424) -/

/-- What the `llm` variable of `_load_llama_thread` refers to once set: a
worker that holds the loaded model, or (Windows) a `SubprocessLlama`
client whose subprocess was restarted after the model had been loaded —
a live but unloaded worker. -/
inductive LlmHandle
  | loaded
  | unloadedWorker
deriving DecidableEq

/-- The mutable state of one `_load_llama_thread` run: the `llm` and
`actual_layers` variables (initialised `None` and `0`), whether `last_err`
has been set, and the persisted cache mapping (`load_model_cache` /
`save_model_cache` abstracted as reading and writing this mapping). -/
structure LoadState where
  llm : Option LlmHandle
  actual_layers : Int
  lastErr : Bool
  cache : Cache

/-- The candidate loop of `_load_llama_thread` (logic_mixins.py lines
299-346), over an abstract per-level attempt oracle.  `keyBound` is the
state of the closure variable `cache_key`: `load_model_task` assigns it
only in the `requested_gpu_layers != 0` branch (line 233), so for a
requested level of 0 it is an unbound free variable (`none`).

Per candidate: a failing load attempt records `last_err` and moves on (on
Windows after a `client.restart()`, which leaves no model loaded — the
same state the worker was in).  A successful load sets `llm` and
`actual_layers`; the subsequent cache write `cache[cache_key] = ...`
(lines 315/341) then either persists the entry and breaks (`cache_key`
bound), or raises `NameError` (`cache_key` unbound), landing in the same
per-candidate `except`: `last_err` is set, on Windows `client.restart()`
kills the worker that holds the just-loaded model, and the loop
continues. -/
def loadLoop (win32 : Bool) (attempt : Int → Bool)
    (keyBound : Option String) (entry : Int → CacheEntry) :
    List Int → LoadState → LoadState
  | [], st => st
  | l :: rest, st =>
    if attempt l then
      match keyBound with
      | some key =>
        { llm := some .loaded, actual_layers := l, lastErr := st.lastErr,
          cache := cacheInsert st.cache key (entry l) }
      | none =>
        loadLoop win32 attempt keyBound entry rest
          { llm := some (if win32 then .unloadedWorker else .loaded),
            actual_layers := l, lastErr := true, cache := st.cache }
    else
      loadLoop win32 attempt keyBound entry rest { st with lastErr := true }

/-- The value `_load_llama_thread` puts on the result queue:
`("success", llm, actual_layers)` — where `llm` may be `None` (empty
candidate list) or an unloaded worker — or `("error", str(last_err),
None)` when `llm` is still `None` and some error was recorded. -/
inductive ThreadResult
  | success (llm : Option LlmHandle) (actual_layers : Int)
  | error
deriving DecidableEq

/-- `_load_llama_thread` (logic_mixins.py lines 271-354): run the
candidate loop, then re-raise the last error only if `llm` is still
`None`; otherwise report success with whatever `llm` and `actual_layers`
hold.  Also returns the resulting persisted cache mapping. -/
def load_llama_thread (win32 : Bool) (attempt : Int → Bool)
    (diskCache : Cache) (keyBound : Option String)
    (entry : Int → CacheEntry) (layers : List Int) :
    ThreadResult × Cache :=
  match loadLoop win32 attempt keyBound entry layers
      ⟨none, 0, false, diskCache⟩ with
  | ⟨none, a, true, c⟩ => (.error, c)
  | ⟨none, a, false, c⟩ => (.success none a, c)
  | ⟨some h, a, _, c⟩ => (.success (some h) a, c)

/-- `cache_key` as `_load_llama_thread` sees it: bound to
`get_cache_key(model_path, context_size)` when the requested level is not
0, an unbound free variable otherwise (logic_mixins.py lines 229-233). -/
def cache_key_binding (model_path : String) (context_size : Nat)
    (requested : Int) : Option String :=
  if requested = 0 then none
  else some (get_cache_key model_path context_size)

/-- The whole load task for one request: build the candidate list
(`layers_to_try`), bind `cache_key` as `load_model_task` does, and run the
load thread. -/
def load_model_task_thread (win32 : Bool) (attempt : Int → Bool)
    (diskCache : Cache) (model_path : String) (context_size : Nat)
    (cached : Option Int) (requested : Int) : ThreadResult × Cache :=
  load_llama_thread win32 attempt diskCache
    (cache_key_binding model_path context_size requested)
    (fun l => ⟨l, model_path, context_size⟩)
    (layers_to_try cached requested)

/-- The user-visible outcome of `_check_model_load_result`
(logic_mixins.py lines 372-424): a `"success"` result with a non-`None`
handle installs it (`self.llm = llm; self.gpu_layers = actual_layers`,
success notification) — whether or not the worker actually holds a
model; a `"success"` with `llm = None` or an `"error"` result reports a
failed load. -/
inductive CheckOutcome
  | installed (handle : LlmHandle) (gpu_layers : Int)
  | loadFailed
deriving DecidableEq

/-- `_check_model_load_result` on a queue item. -/
def check_model_load_result : ThreadResult → CheckOutcome
  | .success (some h) l => .installed h l
  | .success none _ => .loadFailed
  | .error => .loadFailed

/-- C4 (evaluation of the code at the failing input, `requested = 0`):
with the model loadable at level 0, the load succeeds but the cache write
raises `NameError` on the unbound `cache_key`, so nothing is persisted —
on Linux the run still reports success with the loaded model and an
unchanged cache; on Windows the per-candidate `except` additionally
restarts the worker that held the model, and the reported success makes
`_check_model_load_result` install an unloaded worker.  For a non-zero
request (`-1` here, succeeding at level 64) the entry *is* persisted
under `"{model_path}:{context_size}"` with the actually-used level, as
the claim describes. -/
theorem load_requested_zero_skips_persist_and_may_install_unloaded :
    load_model_task_thread false (fun l => l == 0) emptyCache "m.gguf"
        4096 none 0 =
      (.success (some .loaded) 0, emptyCache) ∧
    (load_model_task_thread false (fun l => l == 0) emptyCache "m.gguf"
        4096 none 0).2 (get_cache_key "m.gguf" 4096) = none ∧
    load_model_task_thread true (fun l => l == 0) emptyCache "m.gguf"
        4096 none 0 =
      (.success (some .unloadedWorker) 0, emptyCache) ∧
    check_model_load_result
        (load_model_task_thread true (fun l => l == 0) emptyCache "m.gguf"
          4096 none 0).1 =
      .installed .unloadedWorker 0 ∧
    load_model_task_thread false (fun l => l == 64) emptyCache "m.gguf"
        4096 none (-1) =
      (.success (some .loaded) 64,
       cacheInsert emptyCache (get_cache_key "m.gguf" 4096)
         ⟨64, "m.gguf", 4096⟩) :=
  ⟨rfl, rfl, rfl, rfl, rfl⟩

/-! ### The inference stream loop (`run_inference`, logic_mixins.py lines
124-222) -/

/-- One observation of the `for output in stream` loop: either an
iteration that reads the cancellation flag (`self.is_loading == False`)
and receives one yielded output (`None` for a timeout yield, or a chunk
with its content string), or the stream iteration raising an exception
(worker crash or protocol error). -/
inductive StreamItem
  | item (cancelled : Bool) (out : Option String)
  | raiseEvent
deriving DecidableEq

/-- How the stream loop ended: ran to exhaustion, broke out on the flag
(or on a failed display update, which takes the same `was_cancelled`
path), or an exception escaped to the `except` handler. -/
inductive ExitKind
  | normal
  | cancelled
  | crashed
deriving DecidableEq

/-- The accumulation loop of `run_inference` (logic_mixins.py lines
124-193): per iteration, first check the cancellation flag and break; a
`None` yield re-checks the flag and otherwise continues; an empty chunk is
skipped; any other chunk is appended to `assistant_content`.  An exception
during iteration aborts the loop with whatever was accumulated.  Display
and status updates do not affect the accumulated content and are not
modelled. -/
def streamLoop : List StreamItem → String → String × ExitKind
  | [], acc => (acc, .normal)
  | .raiseEvent :: _, acc => (acc, .crashed)
  | .item c o :: rest, acc =>
    if c then (acc, .cancelled)
    else
      match o with
      | none => streamLoop rest acc
      | some s => streamLoop rest (if s = "" then acc else acc ++ s)

/-- The tail of `run_inference` (logic_mixins.py lines 194-222) acting on
the conversation: when the loop ended normally or by cancellation and some
content was accumulated, append it as an assistant message and prune
(lines 198-206); when an exception escaped the loop, the `except` handler
(line 216) only notifies — the conversation is left as it was. -/
def run_inference_finish (llm : Option Tok) (context_size : Nat)
    (messages : List Msg) (r : String × ExitKind) : List Msg :=
  match r.2 with
  | .crashed => messages
  | _ =>
    if r.1 = "" then messages
    else prune_messages_if_needed llm
      (messages ++ [⟨"assistant", r.1⟩]) context_size

/-- A two-message conversation holding no assistant message. -/
def conv2 : List Msg := [⟨"system", "s"⟩, ⟨"user", "u"⟩]

/-- C5 counterexample: a worker crash after the fragment `"Hi"` has been
accumulated leaves the conversation untouched — the partial assistant
content is not appended (the exception skips the append at
logic_mixins.py line 200), so content *is* silently discarded from the
conversation on a crash. -/
theorem crash_discards_partial_content_counterexample :
    streamLoop [.item false (some "Hi"), .raiseEvent] "" =
      ("Hi", .crashed) ∧
    run_inference_finish (some (tokC 10)) 8192 conv2
        (streamLoop [.item false (some "Hi"), .raiseEvent] "") = conv2 ∧
    ∀ m ∈ conv2, m.role ≠ "assistant" := by
  refine ⟨rfl, rfl, ?_⟩
  decide

/-- C5 (amended): accumulated assistant content is preserved — appended as
the final message of the (pruned) conversation — whenever the stream loop
ends normally or by cancellation; when the loop ends in a crash, the
conversation is returned unchanged and any accumulated partial content is
dropped from it. -/
theorem partial_content_preserved_unless_crash (llm : Option Tok)
    (context_size : Nat) (messages : List Msg)
    (events : List StreamItem) :
    ((streamLoop events "").2 = .crashed →
      run_inference_finish llm context_size messages
        (streamLoop events "") = messages) ∧
    ((streamLoop events "").2 ≠ .crashed → (streamLoop events "").1 ≠ "" →
      (run_inference_finish llm context_size messages
          (streamLoop events "")).getLast? =
        some ⟨"assistant", (streamLoop events "").1⟩) := by
  generalize streamLoop events "" = r
  obtain ⟨acc, ex⟩ := r
  constructor
  · intro hex
    replace hex : ex = .crashed := hex
    subst hex
    rfl
  · intro hex hacc
    replace hex : ex ≠ .crashed := hex
    replace hacc : acc ≠ "" := hacc
    have hne : run_inference_finish llm context_size messages (acc, ex) =
        prune_messages_if_needed llm
          (messages ++ [⟨"assistant", acc⟩]) context_size := by
      cases ex with
      | normal => rw [run_inference_finish]; exact if_neg hacc
      | cancelled => rw [run_inference_finish]; exact if_neg hacc
      | crashed => exact absurd rfl hex
    rw [hne, prune_getLast?]
    exact List.getLast?_concat messages

/-- Witness for `partial_content_preserved_unless_crash`: a normally
completed stream whose single fragment `"ok"` ends up as the final
assistant message. -/
theorem partial_content_preserved_unless_crash_witness :
    (streamLoop [.item false (some "ok")] "").2 ≠ .crashed ∧
    (streamLoop [.item false (some "ok")] "").1 ≠ "" ∧
    (run_inference_finish (some (tokC 10)) 8192 conv2
        (streamLoop [.item false (some "ok")] "")).getLast? =
      some ⟨"assistant", (streamLoop [.item false (some "ok")] "").1⟩ :=
  ⟨by decide, by decide,
   (partial_content_preserved_unless_crash (some (tokC 10)) 8192 conv2
     [.item false (some "ok")]).2 (by decide) (by decide)⟩

/-! ### The streaming wire protocol (`SubprocessLlama.create_chat_completion`
and `_drain_stream_locked`, llm_subprocess_client.py lines 76-89 and
157-200) -/

/-- One wire record read from the worker's stdout, as classified by the
client: a `{"type":"delta","content":...}` record, a `{"type":"done"}`
record, a `{"type":"error","message":...}` record, or a record with any
other type tag.  A worker that follows llm_subprocess_worker.py emits only
deltas terminated by one `done` or one `error`. -/
inductive Wire
  | delta (content : String)
  | done
  | error (message : String)
  | other
deriving DecidableEq

/-- How the streaming generator terminates: a clean stop (`return` on
`done`), or an exception (`RuntimeError` carrying the worker's message on
an `error` record, a protocol error on an unexpected record, or
"LLM subprocess exited" when the channel ends). -/
inductive GenOutcome
  | finished
  | raised (message : String)
deriving DecidableEq

/-- A full run of the `_gen` loop of `create_chat_completion`
(llm_subprocess_client.py lines 181-191) by a consumer that never closes
early, over the queued wire records: returns the yielded content
fragments in order, the outcome, and the wire records left unconsumed on
the channel. -/
def genRun : List Wire → List String × GenOutcome × List Wire
  | [] => ([], .raised "LLM subprocess exited", [])
  | .delta c :: rest =>
    (c :: (genRun rest).1, (genRun rest).2.1, (genRun rest).2.2)
  | .done :: rest => ([], .finished, rest)
  | .error m :: rest => ([], .raised m, rest)
  | .other :: rest => ([], .raised "Unexpected response", rest)

/-- C6: A worker response `delta c1, delta c2, delta c3, done` makes the
streaming generator yield exactly the three fragments and stop cleanly
with the channel empty; a response `delta c1, error m` yields exactly one
fragment and then raises the worker's error, both records having been
consumed. -/
theorem stream_fragments_then_stop_or_raise (c1 c2 c3 m : String) :
    genRun [.delta c1, .delta c2, .delta c3, .done] =
      ([c1, c2, c3], .finished, []) ∧
    genRun [.delta c1, .error m] = ([c1], .raised m, []) :=
  ⟨rfl, rfl⟩

/-- `_drain_stream_locked` (llm_subprocess_client.py lines 76-89): read
records, ignoring deltas and anything else, until a `done` or an `error`
record is consumed (or the channel ends, which `_recv` turns into an
exception the drain swallows).  Returns what is left on the channel. -/
def drain_stream_locked : List Wire → List Wire
  | [] => []
  | .done :: rest => rest
  | .error _ :: rest => rest
  | .delta _ :: rest => drain_stream_locked rest
  | .other :: rest => drain_stream_locked rest

/-- The channel state at the moment the consumer closes the generator
after having taken `k + 1` fragments: `some rest` when the generator is
then suspended at its `yield` with `rest` still queued; `none` when the
generator already terminated on its own before coming to the `(k + 1)`-st
fragment (a close after termination does not run any generator code). -/
def suspendRemaining : Nat → List Wire → Option (List Wire)
  | _, [] => none
  | 0, .delta _ :: rest => some rest
  | k + 1, .delta _ :: rest => suspendRemaining k rest
  | _, .done :: _ => none
  | _, .error _ :: _ => none
  | _, .other :: _ => none

/-- Closing the generator while it is suspended injects `GeneratorExit` at
the `yield`; the `except GeneratorExit` handler
(llm_subprocess_client.py lines 192-196) then drains the channel before
the generator finishes.  Returns the channel contents after the close. -/
def closeAbandoned (k : Nat) (records : List Wire) : Option (List Wire) :=
  (suspendRemaining k records).map drain_stream_locked

/-- `isBoundary r` holds of the records that end one streamed response. -/
def isBoundary : Wire → Bool
  | .done => true
  | .error _ => true
  | _ => false

lemma drain_eq_dropWhile (rem : List Wire) :
    drain_stream_locked rem =
      (rem.dropWhile fun r => !isBoundary r).drop 1 := by
  induction rem with
  | nil => rfl
  | cons r rest ih =>
    cases r with
    | delta c => simpa [drain_stream_locked, List.dropWhile, isBoundary]
        using ih
    | done => rfl
    | error m => rfl
    | other => simpa [drain_stream_locked, List.dropWhile, isBoundary]
        using ih

/-- C7: If the consumer abandons the stream early — closing the generator
while it is suspended after some fragment, with `rem` still queued — the
close consumes every queued record up to and including the first `done` or
`error` record before the generator finishes: exactly the records after
that first response boundary remain on the channel. -/
theorem abandoned_stream_drained_to_boundary (k : Nat)
    (records rem : List Wire) (h : suspendRemaining k records = some rem) :
    closeAbandoned k records =
      some ((rem.dropWhile fun r => !isBoundary r).drop 1) := by
  rw [closeAbandoned, h]
  exact congrArg some (drain_eq_dropWhile rem)

/-- Witness for `abandoned_stream_drained_to_boundary`: closing after the
first of two fragments consumes the second delta and the `done`, leaving
only the next response's record. -/
theorem abandoned_stream_drained_to_boundary_witness :
    suspendRemaining 0 [.delta "a", .delta "b", .done, .delta "z"] =
      some [.delta "b", Wire.done, .delta "z"] ∧
    closeAbandoned 0 [.delta "a", .delta "b", .done, .delta "z"] =
      some (([Wire.delta "b", Wire.done, Wire.delta "z"].dropWhile
          fun r => !isBoundary r).drop 1) :=
  ⟨by decide,
   abandoned_stream_drained_to_boundary 0
     [.delta "a", .delta "b", .done, .delta "z"]
     [.delta "b", .done, .delta "z"] (by decide)⟩

end AiMultiFool
